import Mathlib

/-!
Shallow embedding of the WealthPulse backend (`app.py`): the cache read and
store paths, the security-kind dispatch, the NAV-history ingestion, the
technical-indicator computations (RSI, MACD), the fund max-drawdown metric,
the SIP projection calculator and the mutual-fund search, together with
theorems checking the specification's claims against this embedding.

Numeric model: Python floats are modelled as exact rationals (`ℚ`).
`round(x, 2)` is modelled as round-half-up to a multiple of 1/100; CPython
uses round-half-even on floats, but no statement below depends on an exact
half-cent tie.  A Python exception escaping an arithmetic expression
(ZeroDivisionError) is modelled by `Option`: `none` stands for the exception
propagating to the endpoint's broad `except` handler (an error response).
Timestamps (`datetime.now()`) are modelled as integer seconds since epoch.
-/

/-- Python's `round(x, 2)` on the exact-rational model: round half up to a
multiple of 1/100.  CPython rounds floats half to even; the two agree except
at exact half-cent ties, which no theorem below depends on. -/
def round2 (q : ℚ) : ℚ := ((round (q * 100) : ℤ) : ℚ) / 100

/-- A cache entry of the `stocks` / `crypto` domains: the stored response
`data` and the write `timestamp` (app.py lines 255–258, 469–472). -/
structure CacheEntry (α : Type) where
  data : α
  timestamp : ℤ
  deriving DecidableEq

/-- Association lookup in a Python dict modelled as a key/value list; the
first match wins (the store below prepends, so a later write shadows an
earlier one, matching dict overwrite). -/
def lookupKey {β : Type} : List (String × β) → String → Option β
  | [], _ => none
  | (k, v) :: t, key => if k = key then some v else lookupKey t key

/-- The per-domain cache TTLs in seconds, `CACHE_EXPIRY` (app.py lines
24–29). -/
def CACHE_EXPIRY : List (String × ℤ) :=
  [("stocks", 300), ("mutual_funds", 3600), ("crypto", 300), ("top_movers", 300)]

/-- The `get_security` / `get_crypto` cached read path (app.py lines 62–67
and 389–395) followed by the unconditional store on the compute path (lines
255–258 and 469–472): if the key is present and `now - timestamp < ttl` the
cached data is returned unchanged; otherwise the computed value is stored
with the current timestamp.  The third component counts how many times the
compute function ran for this request. -/
def getCached {α : Type} (cache : List (String × CacheEntry α)) (key : String)
    (now ttl : ℤ) (compute : α) : α × List (String × CacheEntry α) × ℕ :=
  match lookupKey cache key with
  | some e =>
      if now - e.timestamp < ttl then (e.data, cache, 0)
      else (compute, (key, ⟨compute, now⟩) :: cache, 1)
  | none => (compute, (key, ⟨compute, now⟩) :: cache, 1)

/-- The JSON body returned by `calculate_sip` (app.py lines 495–502).
`total_investment` is returned unrounded; the other monetary fields pass
through `round(_, 2)`. -/
structure SipResult where
  future_value : ℚ
  total_investment : ℚ
  returns : ℚ
  months : ℤ
  monthly_investment : ℚ
  expected_return : ℚ
  deriving DecidableEq

/-- `calculate_sip` (app.py lines 480–504) on already-parsed `amount`,
`years`, `return` parameters.  The endpoint performs no domain validation;
`none` models a Python arithmetic exception — the ZeroDivisionError from
`/ monthly_rate` when the rate is 0, or from `0.0 ** negative` — which the
endpoint's `except` converts into an error response (HTTP 400). -/
def calculate_sip (monthly_investment : ℚ) (years : ℤ) (expected_return : ℚ) :
    Option SipResult :=
  let monthly_rate := expected_return / 100 / 12
  let months := years * 12
  if (1 + monthly_rate = 0 ∧ months < 0) ∨ monthly_rate = 0 then none
  else
    let fv := monthly_investment * (((1 + monthly_rate) ^ months - 1) / monthly_rate) *
      (1 + monthly_rate)
    let total := monthly_investment * (months : ℚ)
    some ⟨round2 fv, total, round2 (fv - total), months, monthly_investment, expected_return⟩

/-- The three security kinds `get_security` can dispatch to. -/
inductive SecurityKind where
  | stock
  | mutualFund
  | crypto
  deriving DecidableEq

/-- Python's `str.isdigit`: nonempty and every character a digit (the wider
Unicode digit classes accepted by CPython are outside the modelled
fragment; scheme codes and tickers are ASCII). -/
def isDigitStr (t : String) : Bool := !t.toList.isEmpty && t.toList.all Char.isDigit

/-- The kind dispatch of `get_security` (app.py lines 69–75): a ticker
containing a hyphen (`'-' in ticker`) goes to `get_crypto`, else a purely
numeric ticker to `get_mutual_fund`, and anything else to `get_stock`. -/
def classify (t : String) : SecurityKind :=
  if t.toList.contains '-' then SecurityKind.crypto
  else if isDigitStr t then SecurityKind.mutualFund
  else SecurityKind.stock

/-- Modelled from the spec: "kind is inferred from identifier shape
(numeric ⇒ mutual fund; contains a market suffix ⇒ listed equity/index;
otherwise treated as crypto pair)".  A market suffix is modelled as a
dot-separated exchange code such as `.NS`, i.e. the identifier contains a
dot.  This definition exists only to be compared with `classify` above. -/
def classifySpec (t : String) : SecurityKind :=
  if isDigitStr t then SecurityKind.mutualFund
  else if t.toList.contains '.' then SecurityKind.stock
  else SecurityKind.crypto

/-- Keys of the process-wide `data_cache['mutual_funds']` dict: the startup
catalog load (app.py lines 38–44) keys records by the *integer*
`schemeCode` taken from the upstream JSON, while the request handlers use
the *string* URL path segment.  Both key types coexist in one dict. -/
abbrev MFKey := ℤ ⊕ String

/-- One `mutual_funds` cache record: the catalog metadata written at load
time, plus the optional `nav_data` / `nav_timestamp` fields that the source
only adds on a successful store (app.py lines 358–361).  The type `ν` of
the stored NAV response is opaque to the cache. -/
structure MFEntry (ν : Type) where
  name : String
  category : String
  ftype : String
  lastUpdated : ℤ
  navData : Option ν
  navTimestamp : Option ℤ
  deriving DecidableEq

/-- Dict lookup on the mixed-key `mutual_funds` cache. -/
def lookupMF {ν : Type} : List (MFKey × MFEntry ν) → MFKey → Option (MFEntry ν)
  | [], _ => none
  | (k, e) :: t, key => if k = key then some e else lookupMF t key

/-- In-place update of an existing record: sets `nav_data`/`nav_timestamp`
on the entry stored under `key` (app.py lines 360–361). -/
def mfStore {ν : Type} : List (MFKey × MFEntry ν) → MFKey → ν → ℤ → List (MFKey × MFEntry ν)
  | [], _, _, _ => []
  | (k, e) :: t, key, v, now =>
      if k = key then
        (k, ⟨e.name, e.category, e.ftype, e.lastUpdated, some v, some now⟩) :: t
      else (k, e) :: mfStore t key v now

/-- `get_mutual_fund` (app.py lines 266–365), caching behaviour only.
The read (lines 269–273) looks the *string* scheme code up, serves the
cached `nav_data` when present and younger than 3600 s (`nav_timestamp`
defaults to the epoch, modelled as 0, when absent); otherwise the NAV
response — abstracted as the parameter `navResp`, whose construction from
upstream data and the int-keyed metadata lookup of line 276 does not touch
the cache — is computed (third component counts this) and then stored
*only if* the string key is already present (lines 359–361). -/
def get_mutual_fund {ν : Type} (cache : List (MFKey × MFEntry ν)) (scheme : String)
    (now : ℤ) (navResp : ν) : ν × List (MFKey × MFEntry ν) × ℕ :=
  match lookupMF cache (Sum.inr scheme) with
  | some e =>
      match e.navData with
      | some v =>
          if now - e.navTimestamp.getD 0 < 3600 then (v, cache, 0)
          else (navResp, mfStore cache (Sum.inr scheme) navResp now, 1)
      | none => (navResp, mfStore cache (Sum.inr scheme) navResp now, 1)
  | none => (navResp, cache, 1)

/-- Gregorian leap year, as `datetime` uses. -/
def isLeapYear (y : ℕ) : Bool := y % 4 == 0 && (y % 100 != 0 || y % 400 == 0)

/-- Days in a month of a given year. -/
def daysInMonth (y m : ℕ) : ℕ :=
  if m = 2 then (if isLeapYear y then 29 else 28)
  else if m = 4 ∨ m = 6 ∨ m = 9 ∨ m = 11 then 30
  else 31

/-- A parsed NAV date. -/
structure Date where
  year : ℕ
  month : ℕ
  day : ℕ
  deriving DecidableEq

/-- Nonempty all-digit character run. -/
def allDigits (cs : List Char) : Bool := !cs.isEmpty && cs.all Char.isDigit

/-- Split a character list at every occurrence of `sep`, like Python's
`str.split` with a one-character separator (empty runs are kept). -/
def splitOnChar (sep : Char) : List Char → List (List Char)
  | [] => [[]]
  | c :: cs =>
      if c = sep then [] :: splitOnChar sep cs
      else
        match splitOnChar sep cs with
        | [] => [[c]]
        | p :: ps => (c :: p) :: ps

/-- Digit characters folded into a natural number. -/
def digitsToNat (cs : List Char) : ℕ := cs.foldl (fun n c => 10 * n + (c.toNat - 48)) 0

/-- `datetime.strptime(s, '%d-%m-%Y')` (app.py line 290): three hyphen
separated numeric fields, day and month of one or two digits, year of up to
four digits, validated against the calendar; `none` models ValueError. -/
def parseDate (s : String) : Option Date :=
  match splitOnChar '-' s.toList with
  | [d, m, y] =>
      if allDigits d && d.length ≤ 2 && allDigits m && m.length ≤ 2 &&
          allDigits y && y.length ≤ 4 then
        if 1 ≤ digitsToNat y ∧ 1 ≤ digitsToNat m ∧ digitsToNat m ≤ 12 ∧
            1 ≤ digitsToNat d ∧ digitsToNat d ≤ daysInMonth (digitsToNat y) (digitsToNat m) then
          some ⟨digitsToNat y, digitsToNat m, digitsToNat d⟩
        else none
      else none
  | _ => none

/-- Whitespace stripped by Python's `float`. -/
def isSpaceChar (c : Char) : Bool := c = ' ' || c = '\t' || c = '\n' || c = '\r'

/-- Drop leading whitespace. -/
def dropLeadingSpace : List Char → List Char
  | [] => []
  | c :: cs => if isSpaceChar c then dropLeadingSpace cs else c :: cs

/-- Strip whitespace at both ends. -/
def trimChars (cs : List Char) : List Char :=
  (dropLeadingSpace (dropLeadingSpace cs).reverse).reverse

/-- The textual analysis done by Python's `float(s)` on plain decimal
literals: after stripping whitespace, an optional sign, then digits with at
most one point and at least one digit overall.  Returns
`(negative, whole, fraction, fraction length)`; `none` models ValueError.
The exponent, `inf` and `nan` forms of CPython are outside the modelled
fragment. -/
def parseNavParts (s : String) : Option (Bool × ℕ × ℕ × ℕ) :=
  let t := trimChars s.toList
  let neg : Bool := t.headD ' ' = '-'
  let body := if t.headD ' ' = '-' || t.headD ' ' = '+' then t.tail else t
  match splitOnChar '.' body with
  | [w] => if allDigits w then some (neg, digitsToNat w, 0, 0) else none
  | [w, f] =>
      if (allDigits w || w.isEmpty) && (allDigits f || f.isEmpty) &&
          (!w.isEmpty || !f.isEmpty) then
        some (neg, digitsToNat w, digitsToNat f, f.length)
      else none
  | _ => none

/-- Python's `float(s)` (app.py line 291) on the fragment analysed by
`parseNavParts`, as an exact rational.  Note there is no sign restriction:
negative and zero values parse successfully. -/
def parseNav (s : String) : Option ℚ :=
  (parseNavParts s).map (fun p =>
    (if p.1 then -1 else 1) * ((p.2.1 : ℚ) + (p.2.2.1 : ℚ) / (10 : ℚ) ^ p.2.2.2))

/-- One raw upstream NAV-history record; either JSON key may be absent
(`KeyError` in the source loop). -/
structure RawNavEntry where
  date : Option String
  nav : Option String
  deriving DecidableEq

/-- One cleaned NAV entry as appended to `nav_values`. -/
structure NavEntry where
  date : Date
  nav : ℚ
  deriving DecidableEq

/-- The NAV ingestion loop of `get_mutual_fund` (app.py lines 287–294): the
`try` body parses the date and the NAV and appends the pair; `except
(ValueError, KeyError): continue` drops entries whose field is missing or
fails to parse.  No sign check is performed on the parsed NAV. -/
def parseNavEntries : List RawNavEntry → List NavEntry
  | [] => []
  | e :: t =>
      match e.date, e.nav with
      | some ds, some ns =>
          match parseDate ds, parseNav ns with
          | some d, some n => ⟨d, n⟩ :: parseNavEntries t
          | _, _ => parseNavEntries t
      | _, _ => parseNavEntries t

/-- Tail of the recursive exponentially weighted mean: `prev` is the last
output value. -/
def ewmAux (a : ℚ) : ℚ → List ℚ → List ℚ
  | _, [] => []
  | prev, x :: xs => (a * x + (1 - a) * prev) :: ewmAux a (a * x + (1 - a) * prev) xs

/-- `Series.ewm(span=s, adjust=False).mean()` with `a = 2/(s+1)`: the first
output is the first observation, then `y = a*x + (1-a)*y_prev`. -/
def ewmAF (a : ℚ) : List ℚ → List ℚ
  | [] => []
  | x :: xs => x :: ewmAux a x xs

/-- The MACD line (app.py lines 160–162): EMA span 12 minus EMA span 26,
pointwise. -/
def macdSeries (closes : List ℚ) : List ℚ :=
  List.zipWith (fun u v => u - v) (ewmAF (2/13) closes) (ewmAF (2/27) closes)

/-- The signal line (app.py line 163): EMA span 9 of the MACD line. -/
def signalSeries (closes : List ℚ) : List ℚ := ewmAF (2/10) (macdSeries closes)

/-- `Series.iloc[-1]`: the last element, if any. -/
def lastElem {α : Type} : List α → Option α
  | [] => none
  | [x] => some x
  | _ :: y :: t => lastElem (y :: t)

/-- The reported `(macd, signal, histogram)` triple (app.py lines 169–171):
each of the three is rounded to 2 decimals independently, the histogram
being `round(macd.iloc[-1] - signal.iloc[-1], 2)`. -/
def technicalsMACD (closes : List ℚ) : Option (ℚ × ℚ × ℚ) :=
  match lastElem (macdSeries closes), lastElem (signalSeries closes) with
  | some m, some s => some (round2 m, round2 s, round2 (m - s))
  | _, _ => none

/-- `Series.diff()` without its leading NaN: consecutive differences. -/
def diffs (l : List ℚ) : List ℚ := List.zipWith (fun u v => u - v) l.tail l

/-- `delta.where(delta > 0, 0)` (app.py line 152). -/
def gainsOf (l : List ℚ) : List ℚ := (diffs l).map (fun d => if 0 < d then d else 0)

/-- `-delta.where(delta < 0, 0)` (app.py line 153): losses as absolute
values. -/
def lossesOf (l : List ℚ) : List ℚ := (diffs l).map (fun d => if d < 0 then -d else 0)

/-- The last `n` elements of a list. -/
def lastN (n : ℕ) (l : List ℚ) : List ℚ := l.drop (l.length - n)

/-- `Series.rolling(n).mean().iloc[-1]`: the mean of the last `n` values,
`none` (NaN) when fewer than `n` values exist. -/
def rollMeanLast (n : ℕ) (l : List ℚ) : Option ℚ :=
  if n ≤ l.length then some ((lastN n l).sum / (n : ℚ)) else none

/-- The last RSI value (app.py lines 150–157): `100 - 100/(1 + g/l)` on the
14-period average gain `g` and average loss `l`.  The source divides with
numpy float semantics, so `g/0` with `g > 0` is `inf` and the RSI collapses
to `100`, while `0/0` is NaN and poisons the RSI; both cases are written
out explicitly here (`none` models NaN). -/
def rsiLast (closes : List ℚ) : Option ℚ :=
  match rollMeanLast 14 (gainsOf closes), rollMeanLast 14 (lossesOf closes) with
  | some g, some l =>
      if l = 0 then (if g = 0 then none else some 100)
      else some (100 - 100 / (1 + g / l))
  | _, _ => none

/-- Tail of the running maximum: `m` is the maximum seen so far. -/
def cummaxAux : ℚ → List ℚ → List ℚ
  | _, [] => []
  | m, x :: xs => max m x :: cummaxAux (max m x) xs

/-- `Series.cummax()` (app.py line 324). -/
def cummax : List ℚ → List ℚ
  | [] => []
  | x :: xs => x :: cummaxAux x xs

/-- `(nav - rolling_max) / rolling_max` (app.py line 325), pointwise. -/
def drawdowns (navs : List ℚ) : List ℚ :=
  List.zipWith (fun n r => (n - r) / r) navs (cummax navs)

/-- `Series.min()` of a rational list; `none` on the empty list. -/
def listMin : List ℚ → Option ℚ
  | [] => none
  | x :: xs => some ((listMin xs).elim x (fun m => min x m))

/-- `round(drawdown.min() * 100, 2)` (app.py line 326). -/
def maxDrawdown (navs : List ℚ) : Option ℚ :=
  (listMin (drawdowns navs)).map (fun m => round2 (m * 100))

/-- A token of the modelled regular-expression fragment: a literal
character or the `.` wildcard.  This is the fragment of Python `re`
exercised by fund-name queries; the searches below compare letters
case-insensitively, modelling `re.IGNORECASE`. -/
inductive RTok where
  | lit (c : Char)
  | dot
  deriving DecidableEq

/-- `re.compile` on the modelled fragment: every `.` becomes the wildcard,
every other character a literal. -/
def compilePat (q : String) : List RTok :=
  q.toList.map (fun c => if c = '.' then RTok.dot else RTok.lit c)

/-- One token against one character: `.` matches everything but a newline;
a literal matches up to case. -/
def tokMatches : RTok → Char → Bool
  | RTok.dot, c => c != '\n'
  | RTok.lit a, c => a.toLower == c.toLower

/-- The pattern consumes a prefix of the character list. -/
def matchHere : List RTok → List Char → Bool
  | [], _ => true
  | _ :: _, [] => false
  | t :: ts, c :: cs => tokMatches t c && matchHere ts cs

/-- `re.search(pattern, s, re.IGNORECASE)` (app.py line 376): the pattern
matches at some position of the string. -/
def reSearch (p : List RTok) : List Char → Bool
  | [] => matchHere p []
  | c :: cs => matchHere p (c :: cs) || reSearch p cs

/-- Case-insensitive character-list prefix test (plain text, no wildcard);
only used to contrast `reSearch` with a substring test. -/
def beginsCI : List Char → List Char → Bool
  | [], _ => true
  | _ :: _, [] => false
  | a :: ps, c :: cs => (a.toLower == c.toLower) && beginsCI ps cs

/-- Case-insensitive plain substring test, for contrast with `reSearch`. -/
def containsSub (p : List Char) : List Char → Bool
  | [] => beginsCI p []
  | c :: cs => beginsCI p (c :: cs) || containsSub p cs

/-- One fund of the catalog as the search iterates it (insertion order). -/
structure FundRecord where
  code : ℤ
  name : String
  category : String
  deriving DecidableEq

/-- One search hit as serialized by the endpoint. -/
structure SearchResult where
  scheme_code : ℤ
  name : String
  category : String
  deriving DecidableEq

/-- The collection loop of `search_mutual_funds` (app.py lines 374–381):
every fund whose name the query matches, in catalog order. -/
def collectMatches (p : List RTok) : List FundRecord → List SearchResult
  | [] => []
  | f :: t =>
      if reSearch p f.name.toList then
        ⟨f.code, f.name, f.category⟩ :: collectMatches p t
      else collectMatches p t

/-- `search_mutual_funds` (app.py lines 368–383): an empty query returns
the empty list, otherwise the matches are collected in catalog order and
truncated to the first 10 (`results[:10]`). -/
def search_mutual_funds (query : String) (catalog : List FundRecord) : List SearchResult :=
  if query = "" then [] else (collectMatches (compilePat query) catalog).take 10

/-! ### Helper lemmas -/

theorem round2_zero : round2 0 = 0 := by
  simp [round2]

theorem round2_nonpos {q : ℚ} (h : q ≤ 0) : round2 q ≤ 0 := by
  have h1 : q * 100 + 1 / 2 ≤ (0 : ℚ) + 1 / 2 := by nlinarith
  have h2 : round (q * 100) ≤ round (0 : ℚ) := by
    rw [round_eq, round_eq]
    exact Int.floor_le_floor h1
  have h3 : round (0 : ℚ) = 0 := by simp
  have h4 : ((round (q * 100) : ℤ) : ℚ) ≤ 0 := by
    rw [h3] at h2
    exact_mod_cast h2
  have h5 : (0 : ℚ) < 100 := by norm_num
  unfold round2
  exact div_nonpos_of_nonpos_of_nonneg h4 (le_of_lt h5)

theorem abs_round2_sub (q : ℚ) : |round2 q - q| ≤ 1 / 200 := by
  have h : round2 q - q = (((round (q * 100) : ℤ) : ℚ) - q * 100) / 100 := by
    unfold round2; ring
  have h2 : |((round (q * 100) : ℤ) : ℚ) - q * 100| ≤ 1 / 2 := by
    have := abs_sub_round (q * 100)
    calc |((round (q * 100) : ℤ) : ℚ) - q * 100|
        = |q * 100 - ((round (q * 100) : ℤ) : ℚ)| := abs_sub_comm _ _
      _ ≤ 1 / 2 := this
  rw [h, abs_div]
  have h100 : |(100 : ℚ)| = 100 := by norm_num
  rw [h100]
  rw [div_le_div_iff₀ (by norm_num) (by norm_num)]
  nlinarith [h2]

theorem listMin_nonpos : ∀ (l : List ℚ) (m : ℚ), (∀ x ∈ l, x ≤ 0) →
    listMin l = some m → m ≤ 0 := by
  intro l
  induction l with
  | nil => intro m _ h; simp [listMin] at h
  | cons x xs ih =>
      intro m hall hm
      have hx : x ≤ 0 := hall x (List.mem_cons_self x xs)
      rw [listMin] at hm
      cases hxs : listMin xs with
      | none =>
          rw [hxs] at hm
          simp [Option.elim] at hm
          exact hm ▸ hx
      | some k =>
          rw [hxs] at hm
          simp [Option.elim] at hm
          have hk : k ≤ 0 := ih k (fun y hy => hall y (List.mem_cons_of_mem x hy)) hxs
          exact hm ▸ le_trans (min_le_right x k) hk

theorem listMin_all_zero : ∀ (l : List ℚ), (∀ x ∈ l, x = 0) → l ≠ [] →
    listMin l = some 0 := by
  intro l
  induction l with
  | nil => intro _ h; exact absurd rfl h
  | cons x xs ih =>
      intro hall _
      have hx : x = 0 := hall x (List.mem_cons_self x xs)
      rw [listMin]
      cases hxs : listMin xs with
      | none => simp [Option.elim, hx]
      | some k =>
          have hne : xs ≠ [] := by
            intro h; rw [h] at hxs; simp [listMin] at hxs
          have := ih (fun y hy => hall y (List.mem_cons_of_mem x hy)) hne
          rw [this] at hxs
          have hk : k = 0 := by injection hxs.symm
          simp [Option.elim, hx, hk]

theorem zip_dd_nonpos : ∀ (xs : List ℚ) (m : ℚ), 0 < m → (∀ x ∈ xs, 0 < x) →
    ∀ d ∈ List.zipWith (fun n r => (n - r) / r) xs (cummaxAux m xs), d ≤ 0 := by
  intro xs
  induction xs with
  | nil => intro m _ _ d hd; simp [cummaxAux] at hd
  | cons x t ih =>
      intro m hm hpos d hd
      rw [cummaxAux] at hd
      rw [List.zipWith_cons_cons] at hd
      rcases List.mem_cons.mp hd with h | h
      · have hle : x ≤ max m x := le_max_right m x
        have hpos2 : 0 < max m x := lt_of_lt_of_le hm (le_max_left m x)
        rw [h]
        exact div_nonpos_of_nonpos_of_nonneg (sub_nonpos.mpr hle) (le_of_lt hpos2)
      · have hmx : 0 < max m x :=
          lt_of_lt_of_le (hpos x (List.mem_cons_self x t)) (le_max_right m x)
        exact ih (max m x) hmx (fun y hy => hpos y (List.mem_cons_of_mem x hy)) d h

theorem cummaxAux_of_chain : ∀ (xs : List ℚ) (m : ℚ),
    List.Chain (fun a b => a ≤ b) m xs → cummaxAux m xs = xs := by
  intro xs
  induction xs with
  | nil => intro m _; rfl
  | cons x t ih =>
      intro m hch
      rw [List.chain_cons] at hch
      rw [cummaxAux, max_eq_right hch.1, ih x hch.2]

theorem zip_self_dd : ∀ (l : List ℚ),
    List.zipWith (fun n r => (n - r) / r) l l = l.map (fun _ => (0 : ℚ)) := by
  intro l
  induction l with
  | nil => rfl
  | cons x t ih => simp [List.zipWith_cons_cons, ih, sub_self]

theorem diffs_length (l : List ℚ) : (diffs l).length = l.length - 1 := by
  simp [diffs, List.length_zipWith]

theorem gainsOf_nonneg (l : List ℚ) : ∀ x ∈ gainsOf l, 0 ≤ x := by
  intro x hx
  rw [gainsOf] at hx
  obtain ⟨d, _, rfl⟩ := List.mem_map.mp hx
  by_cases h : 0 < d
  · simpa [h] using le_of_lt h
  · simp [h]

theorem lossesOf_nonneg (l : List ℚ) : ∀ x ∈ lossesOf l, 0 ≤ x := by
  intro x hx
  rw [lossesOf] at hx
  obtain ⟨d, _, rfl⟩ := List.mem_map.mp hx
  by_cases h : d < 0
  · simpa [h] using le_of_lt (neg_pos.mpr h)
  · simp [h]

theorem rollMeanLast_nonneg (l : List ℚ) (hn : ∀ x ∈ l, 0 ≤ x) (g : ℚ)
    (hg : rollMeanLast 14 l = some g) : 0 ≤ g := by
  rw [rollMeanLast] at hg
  by_cases h : 14 ≤ l.length
  · rw [if_pos h] at hg
    have hsum : 0 ≤ (lastN 14 l).sum := by
      apply List.sum_nonneg
      intro x hx
      exact hn x (List.drop_subset _ _ hx)
    have : (0 : ℚ) ≤ 14 := by norm_num
    have := div_nonneg hsum this
    injection hg with hg
    exact hg ▸ (by exact_mod_cast div_nonneg hsum (by norm_num : (0:ℚ) ≤ (14:ℕ)))
  · rw [if_neg h] at hg; exact absurd hg (by simp)

theorem collect_eq_filterMap (p : List RTok) : ∀ (c : List FundRecord),
    collectMatches p c = (c.filter (fun f => reSearch p f.name.toList)).map
      (fun f => ⟨f.code, f.name, f.category⟩) := by
  intro c
  induction c with
  | nil => rfl
  | cons f t ih =>
      by_cases h : reSearch p f.name.data
      · simp [collectMatches, String.toList, h, List.filter_cons, ih]
      · simp [collectMatches, String.toList, h, List.filter_cons, ih]

/-! ### Claim theorems -/

/-- C1: For every cached key in a domain, a read strictly less than the
domain's TTL after the entry's stored timestamp returns the stored value
without invoking the compute function (invocation count 0 and the cache is
untouched); a read at or after the TTL, or for a missing key, invokes the
compute function exactly once for that request, returns the computed value
and stores it with the current timestamp. -/
theorem cache_ttl_read_semantics {α : Type} (cache : List (String × CacheEntry α))
    (key : String) (now ttl : ℤ) (compute : α) :
    (∀ e, lookupKey cache key = some e → now - e.timestamp < ttl →
      getCached cache key now ttl compute = (e.data, cache, 0)) ∧
    (∀ e, lookupKey cache key = some e → ttl ≤ now - e.timestamp →
      getCached cache key now ttl compute = (compute, (key, ⟨compute, now⟩) :: cache, 1)) ∧
    (lookupKey cache key = none →
      getCached cache key now ttl compute = (compute, (key, ⟨compute, now⟩) :: cache, 1)) := by
  refine ⟨fun e he hf => ?_, fun e he hs => ?_, fun hn => ?_⟩
  · simp only [getCached, he]
    rw [if_pos hf]
  · simp only [getCached, he]
    rw [if_neg (not_lt.mpr hs)]
  · simp only [getCached, hn]

/-- C1 witness: a stocks-domain cache holding key `AAPL` written at time
1000 with TTL 300 (the configured stocks TTL): a read at 1250 returns the
stored value with zero compute invocations; a read at 1400 and a read of
the missing key `MSFT` each compute exactly once and store. -/
theorem cache_ttl_read_semantics_witness :
    lookupKey CACHE_EXPIRY "stocks" = some 300 ∧
    getCached ([("AAPL", ⟨42, 1000⟩)] : List (String × CacheEntry ℕ)) "AAPL" 1250 300 7 =
      (42, [("AAPL", ⟨42, 1000⟩)], 0) ∧
    getCached ([("AAPL", ⟨42, 1000⟩)] : List (String × CacheEntry ℕ)) "AAPL" 1400 300 7 =
      (7, ("AAPL", ⟨7, 1400⟩) :: [("AAPL", ⟨42, 1000⟩)], 1) ∧
    getCached ([("AAPL", ⟨42, 1000⟩)] : List (String × CacheEntry ℕ)) "MSFT" 1250 300 7 =
      (7, ("MSFT", ⟨7, 1250⟩) :: [("AAPL", ⟨42, 1000⟩)], 1) :=
  ⟨by decide,
   (cache_ttl_read_semantics [("AAPL", ⟨42, 1000⟩)] "AAPL" 1250 300 7).1
     ⟨42, 1000⟩ (by decide) (by decide),
   (cache_ttl_read_semantics [("AAPL", ⟨42, 1000⟩)] "AAPL" 1400 300 7).2.1
     ⟨42, 1000⟩ (by decide) (by decide),
   (cache_ttl_read_semantics [("AAPL", ⟨42, 1000⟩)] "MSFT" 1250 300 7).2.2 (by decide)⟩

/-- C2: the code at the failing input.  The claim says a rate of 0 is
special-cased to return `future_value = amount * months`; the source has no
such branch — `monthly_rate = 0` reaches `/ monthly_rate` and raises
ZeroDivisionError (modelled `none`), which the endpoint returns as an
error response. -/
theorem sip_zero_rate_errors : calculate_sip 5000 10 0 = none := by
  norm_num [calculate_sip]

/-- C3: the code at the failing input.  The claim says non-positive
amount/years/rate are rejected before any computation; the source performs
no validation — a negative amount flows straight through the projection
formula and a normal result is returned (here with rate 1200 so the
monthly rate is 1 and the numbers stay small). -/
theorem sip_negative_amount_computed :
    calculate_sip (-1) 1 1200 = some ⟨-8190, -12, -8178, 12, -1, 1200⟩ := by
  norm_num [calculate_sip, round2, round_eq]

/-- C4: the code at the failing input.  The catalog loader keys the
`mutual_funds` cache by the *integer* scheme code, but the store in
`get_mutual_fund` is guarded by membership of the *string* scheme code,
so after a miss the computed NAV response is never stored: the returned
cache equals the input cache and an immediately following read for the
same key computes again (count 1 both times) instead of being served from
the cache, contradicting the claim. -/
theorem mutual_fund_nav_store_skipped :
    get_mutual_fund ([(Sum.inl 120503, ⟨"Demo Fund", "Equity", "Open Ended", 0, none, none⟩)] :
        List (MFKey × MFEntry ℕ)) "120503" 10 77 =
      (77, [(Sum.inl 120503, ⟨"Demo Fund", "Equity", "Open Ended", 0, none, none⟩)], 1) ∧
    get_mutual_fund ([(Sum.inl 120503, ⟨"Demo Fund", "Equity", "Open Ended", 0, none, none⟩)] :
        List (MFKey × MFEntry ℕ)) "120503" 11 78 =
      (78, [(Sum.inl 120503, ⟨"Demo Fund", "Equity", "Open Ended", 0, none, none⟩)], 1) := by
  constructor
  · decide
  · decide

/-- C5 counterexample: the ticker `AAPL` — neither numeric nor carrying a
market suffix — is classified by the code as a stock (`get_stock`), while
the claim's shape rule (`classifySpec`) makes any such identifier a crypto
pair.  The two kinds differ, so the claim as stated is false. -/
theorem classify_claim_counterexample :
    classify "AAPL" = SecurityKind.stock ∧ classifySpec "AAPL" = SecurityKind.crypto ∧
    SecurityKind.stock ≠ SecurityKind.crypto := by decide

/-- C5 amended: the dispatch of `get_security` resolves the kind from the
identifier's shape with rules: an identifier containing a hyphen is a
crypto pair; otherwise a purely numeric identifier is a mutual fund;
any other identifier is a listed equity/index (the default branch is
equity, not crypto). -/
theorem classify_by_identifier_shape (t : String) :
    (t.toList.contains '-' = true → classify t = SecurityKind.crypto) ∧
    (t.toList.contains '-' = false → isDigitStr t = true →
      classify t = SecurityKind.mutualFund) ∧
    (t.toList.contains '-' = false → isDigitStr t = false →
      classify t = SecurityKind.stock) := by
  refine ⟨fun h => ?_, fun h hd => ?_, fun h hd => ?_⟩
  · simp only [classify, h]
    simp
  · simp only [classify, h, hd]
    simp
  · simp only [classify, h, hd]
    simp

/-- C5 witness: the three dispatch rules at concrete tickers. -/
theorem classify_by_identifier_shape_witness :
    classify "BTC-USD" = SecurityKind.crypto ∧
    classify "120503" = SecurityKind.mutualFund ∧
    classify "RELIANCE.NS" = SecurityKind.stock :=
  ⟨(classify_by_identifier_shape "BTC-USD").1 (by decide),
   (classify_by_identifier_shape "120503").2.1 (by decide) (by decide),
   (classify_by_identifier_shape "RELIANCE.NS").2.2 (by decide) (by decide)⟩

/-- C6 counterexample: an upstream entry with a valid date and NAV `-5`
survives ingestion — the parsed series contains the non-positive NAV, so it
is not true that only strictly positive NAVs reach analytics. -/
theorem nav_ingest_keeps_nonpositive :
    (parseNavEntries [⟨some "01-01-2020", some "-5"⟩]).map NavEntry.nav = [(-5 : ℚ)] ∧
    ¬ (0 : ℚ) < -5 := by
  constructor
  · have hp : parseNavParts "-5" = some (true, 5, 0, 0) := by decide
    have hd : parseDate "01-01-2020" = some ⟨2020, 1, 1⟩ := by decide
    have hn : parseNav "-5" = some (-5) := by
      rw [parseNav, hp]
      norm_num
    simp [parseNavEntries, hd, hn]
  · norm_num

/-- C6 amended: the ingestion loop drops exactly the entries whose date or
NAV field is missing or fails to parse; every entry whose two fields parse
is kept with its parsed values, with no check on the NAV's sign — the
ingestion is the `filterMap` of the two parsers. -/
theorem nav_ingest_drops_only_unparsable (l : List RawNavEntry) :
    parseNavEntries l = l.filterMap (fun e =>
      match e.date, e.nav with
      | some ds, some ns =>
          match parseDate ds, parseNav ns with
          | some d, some n => some ⟨d, n⟩
          | _, _ => none
      | _, _ => none) := by
  induction l with
  | nil => rfl
  | cons e t ih =>
      obtain ⟨ed, en⟩ := e
      cases ed with
      | none => simpa [parseNavEntries, List.filterMap_cons] using ih
      | some ds =>
          cases en with
          | none => simpa [parseNavEntries, List.filterMap_cons] using ih
          | some ns =>
              cases hd : parseDate ds <;> cases hn : parseNav ns <;>
                simp [parseNavEntries, List.filterMap_cons, hd, hn, ih]

/-- C7 counterexample: for the two-point close series
`[100, 100 + 3861/7000]` the unrounded MACD, signal and histogram are
`11/250`, `11/1250` and `44/1250`; after the independent rounding of
app.py lines 169–171 the reported triple is `(0.04, 0.01, 0.04)`, and the
reported histogram `0.04` differs from reported MACD minus reported signal
`0.04 - 0.01 = 0.03` — so the claimed identity on the reported values is
false. -/
theorem macd_histogram_reported_mismatch :
    technicalsMACD [100, 703861/7000] = some (1/25, 1/100, 1/25) ∧
    (1/25 : ℚ) ≠ 1/25 - 1/100 := by
  have h1 : macdSeries [100, 703861/7000] = [0, 11/250] := by
    norm_num [macdSeries, ewmAF, ewmAux, List.zipWith]
  have h2 : signalSeries [100, 703861/7000] = [0, 11/1250] := by
    rw [signalSeries, h1]
    norm_num [ewmAF, ewmAux]
  constructor
  · rw [technicalsMACD, h1, h2]
    norm_num [lastElem, round2, round_eq]
  · norm_num

/-- C7 amended: the histogram is formed from the unrounded MACD and signal
values — the identity `histogram = MACD - signal` holds exactly *before*
rounding, and the reported histogram is `round2 (MACD - signal)`; because
the three outputs are rounded independently, the reported histogram can
differ from reported MACD minus reported signal, though never by more than
3/200. -/
theorem macd_histogram_round_of_difference (closes : List ℚ) (m s : ℚ)
    (hm : lastElem (macdSeries closes) = some m)
    (hs : lastElem (signalSeries closes) = some s) :
    technicalsMACD closes = some (round2 m, round2 s, round2 (m - s)) ∧
    |round2 (m - s) - (round2 m - round2 s)| ≤ 3 / 200 := by
  constructor
  · rw [technicalsMACD, hm, hs]
  · have h1 := abs_round2_sub (m - s)
    have h2 := abs_round2_sub m
    have h3 := abs_round2_sub s
    rw [abs_le] at h1 h2 h3 ⊢
    constructor
    · linarith
    · linarith

/-- C7 witness: the amended statement at the two-point series `[0, 1]`,
whose last MACD and signal values are `28/351` and `28/1755`. -/
theorem macd_histogram_round_of_difference_witness :
    technicalsMACD [0, 1] = some (round2 (28/351), round2 (28/1755), round2 (28/351 - 28/1755)) ∧
    |round2 (28/351 - 28/1755) - (round2 (28/351) - round2 (28/1755))| ≤ 3 / 200 :=
  macd_histogram_round_of_difference [0, 1] (28/351) (28/1755)
    (by norm_num [macdSeries, ewmAF, ewmAux, List.zipWith, lastElem])
    (by norm_num [signalSeries, macdSeries, ewmAF, ewmAux, List.zipWith, lastElem])

/-- C8: for every close series of at least 15 points whose 14-period
average gain and average loss are not both zero, the RSI of app.py lines
150–157 is defined and lies in the closed interval from 0 to 100, and it
equals 100 whenever the average loss is zero (the `g/0 = inf` collapse of
the numpy division). -/
theorem rsi_in_bounds (closes : List ℚ) (hlen : 15 ≤ closes.length)
    (hnz : ¬ (rollMeanLast 14 (gainsOf closes) = some 0 ∧
      rollMeanLast 14 (lossesOf closes) = some 0)) :
    ∃ x, rsiLast closes = some x ∧ 0 ≤ x ∧ x ≤ 100 ∧
      (rollMeanLast 14 (lossesOf closes) = some 0 → x = 100) := by
  have hdl : (diffs closes).length = closes.length - 1 := diffs_length closes
  have hg14 : 14 ≤ (gainsOf closes).length := by
    rw [gainsOf, List.length_map, hdl]; omega
  have hl14 : 14 ≤ (lossesOf closes).length := by
    rw [lossesOf, List.length_map, hdl]; omega
  have hgeq : rollMeanLast 14 (gainsOf closes) =
      some ((lastN 14 (gainsOf closes)).sum / ((14 : ℕ) : ℚ)) := by
    rw [rollMeanLast, if_pos hg14]
  have hleq : rollMeanLast 14 (lossesOf closes) =
      some ((lastN 14 (lossesOf closes)).sum / ((14 : ℕ) : ℚ)) := by
    rw [rollMeanLast, if_pos hl14]
  set g := (lastN 14 (gainsOf closes)).sum / ((14 : ℕ) : ℚ) with hgdef
  set l := (lastN 14 (lossesOf closes)).sum / ((14 : ℕ) : ℚ) with hldef
  have hg0 : 0 ≤ g := by
    apply div_nonneg _ (by norm_num)
    apply List.sum_nonneg
    intro a ha
    exact gainsOf_nonneg closes a (List.drop_subset _ _ ha)
  have hl0 : 0 ≤ l := by
    apply div_nonneg _ (by norm_num)
    apply List.sum_nonneg
    intro a ha
    exact lossesOf_nonneg closes a (List.drop_subset _ _ ha)
  simp only [rsiLast, hgeq, hleq]
  by_cases hl : l = 0
  · have hgne : ¬ g = 0 := fun hg => hnz ⟨by rw [hgeq, hg], by rw [hleq, hl]⟩
    refine ⟨100, ?_, by norm_num, le_refl 100, fun _ => rfl⟩
    simp [hl, hgne]
  · have hlpos : 0 < l := lt_of_le_of_ne hl0 (Ne.symm hl)
    have hr : 0 ≤ g / l := div_nonneg hg0 (le_of_lt hlpos)
    have h1g : (1 : ℚ) ≤ 1 + g / l := by linarith
    have hfrac_pos : 0 < 100 / (1 + g / l) := div_pos (by norm_num) (by linarith)
    have hfrac_le : 100 / (1 + g / l) ≤ 100 := by
      calc 100 / (1 + g / l) ≤ 100 / 1 :=
            div_le_div_of_nonneg_left (by norm_num) (by norm_num) h1g
        _ = 100 := by norm_num
    refine ⟨100 - 100 / (1 + g / l), ?_, by linarith, by linarith, ?_⟩
    · simp [hl]
    · intro hcontr
      exact absurd (Option.some.inj hcontr) hl

/-- C8 witness: the strictly increasing 15-point series `1..15` has
average gain 1 and average loss 0, so its RSI is 100. -/
theorem rsi_in_bounds_witness :
    ∃ x, rsiLast [1, 2, 3, 4, 5, 6, 7, 8, 9, 10, 11, 12, 13, 14, 15] = some x ∧
      0 ≤ x ∧ x ≤ 100 ∧
      (rollMeanLast 14 (lossesOf [1, 2, 3, 4, 5, 6, 7, 8, 9, 10, 11, 12, 13, 14, 15]) =
        some 0 → x = 100) :=
  rsi_in_bounds [1, 2, 3, 4, 5, 6, 7, 8, 9, 10, 11, 12, 13, 14, 15]
    (by decide)
    (by norm_num [rollMeanLast, gainsOf, lossesOf, diffs, lastN, List.zipWith])

/-- C9: for every non-empty NAV series of positive NAVs — the spec's
NavSeries domain — the reported max drawdown of app.py lines 323–326 is
defined and at most 0, and it equals 0 when the series is non-decreasing.
The head drawdown is always `(nav0 - nav0)/nav0 = 0` and every later
drawdown is non-positive because the running maximum dominates the
current NAV. -/
theorem max_drawdown_nonpos (navs : List ℚ) (hne : navs ≠ [])
    (hpos : ∀ x ∈ navs, 0 < x) :
    ∃ m, maxDrawdown navs = some m ∧ m ≤ 0 ∧
      (List.Chain' (fun a b => a ≤ b) navs → m = 0) := by
  obtain ⟨x, xs, rfl⟩ := List.exists_cons_of_ne_nil hne
  have hx : 0 < x := hpos x (List.mem_cons_self x xs)
  have hdd : drawdowns (x :: xs) =
      0 :: List.zipWith (fun n r => (n - r) / r) xs (cummaxAux x xs) := by
    simp only [drawdowns, cummax, List.zipWith_cons_cons]
    rw [sub_self, zero_div]
  have hrest : ∀ d ∈ List.zipWith (fun n r => (n - r) / r) xs (cummaxAux x xs), d ≤ 0 :=
    zip_dd_nonpos xs x hx (fun a ha => hpos a (List.mem_cons_of_mem x ha))
  rw [maxDrawdown, hdd]
  cases hm : listMin (0 :: List.zipWith (fun n r => (n - r) / r) xs (cummaxAux x xs)) with
  | none => rw [listMin] at hm; exact absurd hm (by simp)
  | some m0 =>
      have hm0 : m0 ≤ 0 := by
        apply listMin_nonpos _ m0 _ hm
        intro d hd
        rcases List.mem_cons.mp hd with h | h
        · rw [h]
        · exact hrest d h
      refine ⟨round2 (m0 * 100), rfl, ?_, ?_⟩
      · apply round2_nonpos
        have := mul_le_mul_of_nonneg_right hm0 (by norm_num : (0 : ℚ) ≤ 100)
        simpa using this
      · intro hch
        have hchain : List.Chain (fun a b => a ≤ b) x xs := hch
        have hcm : cummaxAux x xs = xs := cummaxAux_of_chain xs x hchain
        have hz : List.zipWith (fun n r => (n - r) / r) xs (cummaxAux x xs) =
            xs.map (fun _ => (0 : ℚ)) := by
          rw [hcm]; exact zip_self_dd xs
        have hall0 : ∀ d ∈ (0 :: List.zipWith (fun n r => (n - r) / r) xs (cummaxAux x xs)),
            d = 0 := by
          intro d hd
          rcases List.mem_cons.mp hd with h | h
          · exact h
          · rw [hz] at h
            obtain ⟨_, _, rfl⟩ := List.mem_map.mp h
            rfl
        have hzero := listMin_all_zero _ hall0 (by simp)
        have : m0 = 0 := (Option.some.inj (hzero.symm.trans hm)).symm
        rw [this, zero_mul, round2_zero]

/-- C9 witness: the positive two-point series `[2, 1]` (a strict fall, so
the non-decreasing hypothesis of the last conjunct is vacuous). -/
theorem max_drawdown_nonpos_witness :
    ∃ m, maxDrawdown [2, 1] = some m ∧ m ≤ 0 ∧
      (List.Chain' (fun a b => a ≤ b) ([2, 1] : List ℚ) → m = 0) :=
  max_drawdown_nonpos [2, 1] (by simp) (by norm_num)

/-- C10: the mutual-fund search returns the empty list for an empty query;
for a non-empty query it returns the catalog-order matches of the query
against the fund names — matched as a regular expression with
case-insensitive comparison, `reSearch`, not as a plain substring test —
truncated to the first 10; in particular its output never exceeds 10
entries.  The last two conjuncts separate the regex semantics from a
substring test: the query `V.lue` matches the name `my VALUE fund`
through the `.` wildcard and despite the case difference, while the same
query is not a substring of the name under case-insensitive comparison. -/
theorem search_funds_behavior (query : String) (catalog : List FundRecord) :
    (query = "" → search_mutual_funds query catalog = []) ∧
    (query ≠ "" → search_mutual_funds query catalog =
      ((catalog.filter (fun f => reSearch (compilePat query) f.name.toList)).map
        (fun f => ⟨f.code, f.name, f.category⟩)).take 10) ∧
    (search_mutual_funds query catalog).length ≤ 10 ∧
    reSearch (compilePat "V.lue") "my VALUE fund".toList = true ∧
    containsSub "V.lue".toList "my VALUE fund".toList = false := by
  refine ⟨fun h => ?_, fun h => ?_, ?_, by decide, by decide⟩
  · simp [search_mutual_funds, h]
  · rw [search_mutual_funds, if_neg h, collect_eq_filterMap]
  · by_cases h : query = ""
    · simp [search_mutual_funds, h]
    · rw [search_mutual_funds, if_neg h]
      rw [List.length_take]
      exact min_le_left _ _

/-- C10 witness: a one-fund catalog under the empty query and under the
query `fund`, which matches `Alpha Fund` case-insensitively. -/
theorem search_funds_behavior_witness :
    search_mutual_funds "" [(⟨1, "Alpha Fund", "Equity"⟩ : FundRecord)] = [] ∧
    search_mutual_funds "fund" [(⟨1, "Alpha Fund", "Equity"⟩ : FundRecord)] =
      (([(⟨1, "Alpha Fund", "Equity"⟩ : FundRecord)].filter
        (fun f => reSearch (compilePat "fund") f.name.toList)).map
        (fun f => ⟨f.code, f.name, f.category⟩)).take 10 :=
  ⟨(search_funds_behavior "" [(⟨1, "Alpha Fund", "Equity"⟩ : FundRecord)]).1 rfl,
   (search_funds_behavior "fund" [(⟨1, "Alpha Fund", "Equity"⟩ : FundRecord)]).2.1
     (by decide)⟩
